import Mathlib

/-
Verification of the `Circle` (circular buffer) and `PythonicVector` adapters
from `alexandria.h`.

Both classes wrap a `std::vector<T>` and index it with C `int` arithmetic.
The embedding models:
  * the element storage as a `List T`;
  * every C++ `int` variable as an `Int`, with explicit two's-complement
    wrapping (`i32wrap`, modulus 4294967296 = 2^32) at each point where the
    source narrows a value back into `int`;
  * `std::vector<T>::size()` (a `size_t`) as the list length; a C++ comparison
    between an `int` and a `size_t` converts the `int` to an unsigned 64-bit
    value first, which the embedding renders as `x % 18446744073709551616`
    (emod, 2^64) of the signed value;
  * a thrown `std::out_of_range` as `Except.error CppErr.outOfRange`;
  * operations whose preconditions the source never checks (erasing from an
    empty vector, dereferencing an invalid iterator, signed-integer overflow)
    as `Except.error CppErr.undefinedBehavior`.

Constants used throughout: 2147483648 = 2^31, 4294967296 = 2^32,
18446744073709551616 = 2^64.
-/

namespace Alexandria

/-- Errors surfaced by the embedded operations.  `outOfRange` stands for a
thrown `std::out_of_range` (the source attaches a message string, which the
claims never inspect, so it is dropped here); `undefinedBehavior` marks the
executions on which the C++ source has no defined meaning. -/
inductive CppErr where
  | outOfRange : CppErr
  | undefinedBehavior : CppErr
deriving DecidableEq, Repr

/-- True exactly on a result that models a thrown `std::out_of_range`. -/
def isOutOfRange {α : Type} : Except CppErr α → Bool
  | .error .outOfRange => true
  | _ => false

/-- Conversion of an integer value to the C `int` (32-bit two's complement)
holding it: reduce modulo 2^32 into the range [-2^31, 2^31).  This is the
(universally implemented, and since C++20 standard-mandated) behavior of
narrowing an out-of-range value into an `int`. -/
def i32wrap (x : Int) : Int := (x + 2147483648) % 4294967296 - 2147483648

/-- First normalization loop of `Circle::operator[]`, `operator+=` and
`operator-=`:

    while (v >= contents.size()) { v -= contents.size(); }

`v` is an `int` and `contents.size()` a `size_t`, so the comparison converts
the signed `v` to unsigned 64-bit — a negative `v` therefore *enters* this
loop — and the compound subtraction narrows the unsigned difference back into
`int`, i.e. wraps modulo 2^32.  The loop body is modelled on the `int` value
`i32wrap t`.  The two guards `1 ≤ n ∧ n ≤ 2147483648` restrict the model to
element counts on which the loop terminates; the class stores and reports its
size as `int`, so larger buffers are outside its meaningful domain (with
`n = 0` the C++ loop never exits). -/
def shrinkLoop (n : Int) (t : Int) : Int :=
  if c : 1 ≤ n ∧ n ≤ 2147483648 ∧ n ≤ (i32wrap t) % 18446744073709551616 then
    shrinkLoop n (i32wrap t - n)
  else i32wrap t
  termination_by ((i32wrap t) % 18446744073709551616).toNat
  decreasing_by
    simp only [i32wrap] at *
    omega

/-- Second normalization loop of the same member functions:

    while (v < 0) { v += contents.size(); }

Here the comparison `v < 0` is a plain signed comparison, and the compound
addition again narrows through `int`.  Same domain guards as `shrinkLoop`. -/
def growLoop (n : Int) (t : Int) : Int :=
  if c : 1 ≤ n ∧ n ≤ 2147483648 ∧ i32wrap t < 0 then
    growLoop n (i32wrap t + n)
  else i32wrap t
  termination_by (-(i32wrap t)).toNat
  decreasing_by
    simp only [i32wrap] at *
    omega

/-- The two loops as they appear in sequence in the source. -/
def normalizeIdx (n : Int) (t : Int) : Int := growLoop n (shrinkLoop n t)

/-- Access to `contents[i]` on a `std::vector`: well defined exactly for
`0 ≤ i < contents.size()` (the source never bounds-checks it). -/
def vecGet {T : Type} (l : List T) (i : Int) : Except CppErr T :=
  if h : 0 ≤ i ∧ i.toNat < l.length then .ok (l.get ⟨i.toNat, h.2⟩)
  else .error .undefinedBehavior

/-- The state of a `Circle<T>`:

    std::vector<T> contents; // The underlying data
    int index = 0;           // The index of the current data element as the
                             // "beginning" of the buffer
-/
structure Circle (T : Type) where
  contents : List T
  index : Int
deriving Repr, DecidableEq

namespace Circle

variable {T : Type}

/-- Member `void clear() { contents.clear(); index = 0; }`. -/
def clear (_c : Circle T) : Circle T := ⟨[], 0⟩

/-- Member `void insert(T element)`:

    auto it = contents.begin();
    contents.insert(it+index, element);

`std::vector::insert` at `begin()+index` is well defined exactly for
`0 ≤ index ≤ size()`; anywhere else the iterator is invalid. -/
def insert (c : Circle T) (element : T) : Except CppErr (Circle T) :=
  if 0 ≤ c.index ∧ c.index ≤ (c.contents.length : Int) then
    .ok ⟨c.contents.take c.index.toNat ++ element :: c.contents.drop c.index.toNat, c.index⟩
  else .error .undefinedBehavior

/-- Member `void remove()`:

    auto it = contents.begin();
    contents.erase(it+index);

There is no empty-buffer check: `erase` needs a valid dereferenceable
iterator, i.e. `0 ≤ index < size()`; on an empty buffer (or any index outside
that range) the call is undefined behavior, not a thrown error. -/
def remove (c : Circle T) : Except CppErr (Circle T) :=
  if 0 ≤ c.index ∧ c.index < (c.contents.length : Int) then
    .ok ⟨c.contents.take c.index.toNat ++ c.contents.drop (c.index.toNat + 1), c.index⟩
  else .error .undefinedBehavior

/-- Member `Circle& operator+=(int delta)`: throws `std::out_of_range` on an empty
buffer, otherwise `index += delta` (signed overflow is undefined) followed by
the two normalization loops. -/
def advance (c : Circle T) (delta : Int) : Except CppErr (Circle T) :=
  if c.contents.length = 0 then .error .outOfRange
  else if c.index + delta < -2147483648 ∨ 2147483648 ≤ c.index + delta then
    .error .undefinedBehavior
  else .ok ⟨c.contents, normalizeIdx (c.contents.length : Int) (c.index + delta)⟩

/-- Member `Circle& operator-=(int delta)`: same as `operator+=` with
`index -= delta`. -/
def retreat (c : Circle T) (delta : Int) : Except CppErr (Circle T) :=
  if c.contents.length = 0 then .error .outOfRange
  else if c.index - delta < -2147483648 ∨ 2147483648 ≤ c.index - delta then
    .error .undefinedBehavior
  else .ok ⟨c.contents, normalizeIdx (c.contents.length : Int) (c.index - delta)⟩

/-- Member `Circle& operator++()` — the pre-increment:

    index++;
    if (index == contents.size()) { index = 0; }

No empty-buffer check.  The comparison is `int == size_t`, so the incremented
index is converted to unsigned 64-bit before comparing; the increment itself
is undefined on overflow (`index == INT_MAX`). -/
def inc (c : Circle T) : Except CppErr (Circle T) :=
  if 2147483648 ≤ c.index + 1 then .error .undefinedBehavior
  else if (c.index + 1) % 18446744073709551616 = (c.contents.length : Int) then
    .ok ⟨c.contents, 0⟩
  else .ok ⟨c.contents, c.index + 1⟩

/-- Member `Circle& operator--()` — the pre-decrement:

    index--;
    if (index == -1) { index = contents.size() - 1; }

No empty-buffer check.  `contents.size() - 1` is computed in `size_t` (on an
empty buffer it wraps to 2^64 - 1) and then narrowed into `int`, which
`i32wrap` renders; the decrement itself is undefined on overflow
(`index == INT_MIN`). -/
def dec (c : Circle T) : Except CppErr (Circle T) :=
  if c.index - 1 < -2147483648 then .error .undefinedBehavior
  else if c.index - 1 = -1 then .ok ⟨c.contents, i32wrap ((c.contents.length : Int) - 1)⟩
  else .ok ⟨c.contents, c.index - 1⟩

/-- Member `T& operator[](int offset)`:

    if (contents.size() == 0) { throw std::out_of_range(...); }
    int target = index + offset;
    while (target >= contents.size()) { target -= contents.size(); }
    while (target < 0) { target += contents.size(); }
    return contents[target];

The empty check throws; `index + offset` is undefined on signed overflow;
then the two loops normalize `target` and the vector is accessed. -/
def get (c : Circle T) (offset : Int) : Except CppErr T :=
  if c.contents.length = 0 then .error .outOfRange
  else if c.index + offset < -2147483648 ∨ 2147483648 ≤ c.index + offset then
    .error .undefinedBehavior
  else vecGet c.contents (normalizeIdx (c.contents.length : Int) (c.index + offset))

/-- Member `T operator++(int)` — the post-increment:

    T og = (*this)[0];
    ++(*this);
    return og;

When `(*this)[0]` throws (empty buffer), the exception propagates before any
mutation, so the error result carries the unchanged state. -/
def incPost (c : Circle T) : Except (CppErr × Circle T) (T × Circle T) :=
  match c.get 0 with
  | .error e => .error (e, c)
  | .ok og =>
    match c.inc with
    | .error e => .error (e, c)
    | .ok c' => .ok (og, c')

/-- Member `T operator--(int)` — the post-decrement, same shape as `operator++(int)`. -/
def decPost (c : Circle T) : Except (CppErr × Circle T) (T × Circle T) :=
  match c.get 0 with
  | .error e => .error (e, c)
  | .ok og =>
    match c.dec with
    | .error e => .error (e, c)
    | .ok c' => .ok (og, c')

/-- Member `int size() { return contents.size(); }` — note the narrowing of `size_t`
into the `int` return value. -/
def size (c : Circle T) : Int := i32wrap (c.contents.length : Int)

end Circle

/-- The §3 invariant of the spec: `0 <= zero_index < size()` whenever
`size() > 0` (the zero index is called irrelevant on an empty buffer). -/
def CircleInv {T : Type} (c : Circle T) : Prop :=
  0 < c.contents.length → 0 ≤ c.index ∧ c.index < (c.contents.length : Int)

/-- The states reachable from a default-constructed `Circle<ℤ>` by the
operations of the adapter (an operation contributes a successor only on its
defined, non-throwing executions). -/
inductive ReachableC : Circle Int → Prop where
  | init : ReachableC ⟨[], 0⟩
  | clear {c : Circle Int} : ReachableC c → ReachableC (c.clear)
  | insert {c c' : Circle Int} (x : Int) :
      ReachableC c → c.insert x = .ok c' → ReachableC c'
  | remove {c c' : Circle Int} :
      ReachableC c → c.remove = .ok c' → ReachableC c'
  | advance {c c' : Circle Int} (d : Int) :
      ReachableC c → c.advance d = .ok c' → ReachableC c'
  | retreat {c c' : Circle Int} (d : Int) :
      ReachableC c → c.retreat d = .ok c' → ReachableC c'
  | inc {c c' : Circle Int} : ReachableC c → c.inc = .ok c' → ReachableC c'
  | dec {c c' : Circle Int} : ReachableC c → c.dec = .ok c' → ReachableC c'
  | incPost {c : Circle Int} {p : Int × Circle Int} :
      ReachableC c → c.incPost = .ok p → ReachableC p.2
  | decPost {c : Circle Int} {p : Int × Circle Int} :
      ReachableC c → c.decPost = .ok p → ReachableC p.2

/-- The state `insert` produces on its defined executions: the new element
sits at the physical position of the zero index, which is unchanged. -/
def insResult {T : Type} (c : Circle T) (x : T) : Circle T :=
  ⟨c.contents.take c.index.toNat ++ x :: c.contents.drop c.index.toNat, c.index⟩


/-- The state of a `PythonicVector<T>`:

    std::vector<T> contents; // The contained data
-/
structure PythonicVector (T : Type) where
  contents : List T
deriving Repr, DecidableEq

namespace PythonicVector

variable {T : Type}

/-- Member `T& operator [] (int index)`:

    if (index < 0) {
        index += contents.size();
    }
    return contents[index];

`index += contents.size()` adds the unsigned `size_t` size and narrows the
result back into `int` (`i32wrap`); the access itself is never
bounds-checked, so anything outside `[0, size())` is undefined behavior. -/
def get (v : PythonicVector T) (index : Int) : Except CppErr T :=
  if index < 0 then vecGet v.contents (i32wrap (index + (v.contents.length : Int)))
  else vecGet v.contents index

/-- Body of the slicing loop of `operator()`:

    for (int i = start; i < end; i++) {
        new_vector.contents.push_back(contents[i]);
    }

rendered with its exact iteration count `(end - start).toNat` as structural
fuel; `i` is the loop counter and `acc` the vector built so far. -/
def sliceLoop (l : List T) : Nat → Int → List T → Except CppErr (List T)
  | 0, _, acc => .ok acc
  | fuel + 1, i, acc =>
    match vecGet l i with
    | .error e => .error e
    | .ok xi => sliceLoop l fuel (i + 1) (acc ++ [xi])

/-- Member `PythonicVector<T> operator () (int start, int end)`: copy the elements
with storage indices in `[start, end)` into a fresh vector. -/
def slice (v : PythonicVector T) (start stop : Int) : Except CppErr (PythonicVector T) :=
  match sliceLoop v.contents (stop - start).toNat start [] with
  | .error e => .error e
  | .ok l => .ok ⟨l⟩

end PythonicVector

theorem i32wrap_lb (x : Int) : -2147483648 ≤ i32wrap x := by
  unfold i32wrap; omega

theorem i32wrap_ub (x : Int) : i32wrap x < 2147483648 := by
  unfold i32wrap; omega

theorem i32wrap_eq_self (x : Int) (h1 : -2147483648 ≤ x) (h2 : x < 2147483648) :
    i32wrap x = x := by
  unfold i32wrap; omega

theorem i32wrap_emod (x : Int) : (i32wrap x) % 4294967296 = x % 4294967296 := by
  unfold i32wrap; omega


/-- Closed form of the first loop: because a negative `int` converts to a huge
unsigned value, the loop keeps subtracting until the *unsigned 32-bit view* of
`t` has been reduced below `n`; the result is `(t mod 2^32) mod n`, not the
floored `t mod n`. -/
theorem shrinkLoop_eq (n : Int) (h1 : 1 ≤ n) (h2 : n ≤ 2147483648) (t : Int) :
    shrinkLoop n t = (t % 4294967296) % n := by
  generalize hw : (t % 4294967296).toNat = w
  induction w using Nat.strong_induction_on generalizing t with
  | _ w ih =>
    have hlb := i32wrap_lb t
    have hub := i32wrap_ub t
    have hmod := i32wrap_emod t
    rw [shrinkLoop]
    by_cases hc : n ≤ (i32wrap t) % 18446744073709551616
    · rw [dif_pos ⟨h1, h2, hc⟩]
      have hcw : n ≤ t % 4294967296 := by omega
      have hstep : (i32wrap t - n) % 4294967296 = t % 4294967296 - n := by omega
      rw [ih ((i32wrap t - n) % 4294967296).toNat (by omega) _ rfl, hstep]
      rw [Int.sub_emod, Int.emod_self, sub_zero, Int.emod_emod_of_dvd _ dvd_rfl]
    · rw [dif_neg (fun hh => hc hh.2.2)]
      have hcw : t % 4294967296 < n := by omega
      have : (t % 4294967296) % n = t % 4294967296 := by
        refine Int.emod_eq_of_lt ?_ hcw
        exact Int.emod_nonneg t (by norm_num)
      omega

/-- The second loop is the identity on values already in `[0, 2^31)` — in
particular on everything `shrinkLoop` can produce for a positive size. -/
theorem growLoop_id (n : Int) (t : Int) (h1 : 0 ≤ t) (h2 : t < 2147483648) :
    growLoop n t = t := by
  rw [growLoop, i32wrap_eq_self t (by omega) h2]
  exact dif_neg (fun hh => absurd hh.2.2 (by omega))

/-- Combined effect of both loops: the physical index actually used is
`(t mod 2^32) mod n` — the floored modulo of the *unsigned reinterpretation*
of `t`, which agrees with the floored modulo of `t` itself exactly when
`t ≥ 0` (or when `n` divides 2^32). -/
theorem normalizeIdx_eq (n : Int) (h1 : 1 ≤ n) (h2 : n ≤ 2147483648) (t : Int) :
    normalizeIdx n t = (t % 4294967296) % n := by
  unfold normalizeIdx
  rw [shrinkLoop_eq n h1 h2 t]
  refine growLoop_id n _ (Int.emod_nonneg _ (by omega)) ?_
  calc (t % 4294967296) % n < n := Int.emod_lt_of_pos _ (by omega)
    _ ≤ 2147483648 := h2

/-! Behavior of the index-normalizing operations on their defined executions,
via the closed form of the two loops. -/

theorem advance_spec {T : Type} (c : Circle T) (d : Int) (h0 : 0 < c.contents.length)
    (hn : (c.contents.length : Int) ≤ 2147483648)
    (hlo : -2147483648 ≤ c.index + d) (hhi : c.index + d < 2147483648) :
    c.advance d = .ok ⟨c.contents, ((c.index + d) % 4294967296) % (c.contents.length : Int)⟩ := by
  have h1 : ¬ c.contents.length = 0 := by omega
  have h2 : ¬ (c.index + d < -2147483648 ∨ 2147483648 ≤ c.index + d) := by omega
  rw [Circle.advance, if_neg h1, if_neg h2, normalizeIdx_eq _ (by exact_mod_cast h0) hn]

theorem retreat_spec {T : Type} (c : Circle T) (d : Int) (h0 : 0 < c.contents.length)
    (hn : (c.contents.length : Int) ≤ 2147483648)
    (hlo : -2147483648 ≤ c.index - d) (hhi : c.index - d < 2147483648) :
    c.retreat d = .ok ⟨c.contents, ((c.index - d) % 4294967296) % (c.contents.length : Int)⟩ := by
  have h1 : ¬ c.contents.length = 0 := by omega
  have h2 : ¬ (c.index - d < -2147483648 ∨ 2147483648 ≤ c.index - d) := by omega
  rw [Circle.retreat, if_neg h1, if_neg h2, normalizeIdx_eq _ (by exact_mod_cast h0) hn]

theorem get_spec {T : Type} (c : Circle T) (offset : Int) (h0 : 0 < c.contents.length)
    (hn : (c.contents.length : Int) ≤ 2147483648)
    (hlo : -2147483648 ≤ c.index + offset) (hhi : c.index + offset < 2147483648) :
    c.get offset =
      vecGet c.contents (((c.index + offset) % 4294967296) % (c.contents.length : Int)) := by
  have h1 : ¬ c.contents.length = 0 := by omega
  have h2 : ¬ (c.index + offset < -2147483648 ∨ 2147483648 ≤ c.index + offset) := by omega
  rw [Circle.get, if_neg h1, if_neg h2, normalizeIdx_eq _ (by exact_mod_cast h0) hn]

theorem get_empty {T : Type} (c : Circle T) (offset : Int) (h : c.contents.length = 0) :
    c.get offset = .error .outOfRange := by
  rw [Circle.get, if_pos h]

/-- C2 (code bug): the spec says `operator[](offset)` reads the physical index
given by the *floored* modulo `(zero_index + offset) mod size()`.  On the
buffer `[10, 20, 30]` with `zero_index = 0` that puts `offset = -1` at
physical index `(-1) mod 3 = 2`, i.e. element `30`; the code instead compares
the signed `target` with the unsigned `size()` — a negative `target` enters
the subtracting loop and is ground through `int` wraparound to
`((-1) + 2^32) mod 3 = 0` — and returns element `10`. -/
theorem claim_C2 :
    Circle.get (⟨[10, 20, 30], 0⟩ : Circle Int) (-1) = .ok 10 ∧
    vecGet ([10, 20, 30] : List Int) ((0 + -1) % 3) = .ok 30 ∧
    (10 : Int) ≠ 30 := by
  refine ⟨?_, by rfl, by decide⟩
  rw [get_spec (⟨[10, 20, 30], 0⟩ : Circle Int) (-1) (by decide) (by decide) (by decide)
    (by decide)]
  rfl

/-- C3 (code bug): `remove()` has no empty-buffer check at all — it calls
`contents.erase(contents.begin() + index)`, which on an empty buffer (and
after exhausting a size-1 buffer) uses an invalid iterator: undefined
behavior, not the out-of-range error the spec promises.  The middle part of
the claim does hold: `remove()` on a size-1 buffer at zero index 0 yields the
empty buffer. -/
theorem claim_C3 :
    Circle.remove (⟨[], 0⟩ : Circle Int) = .error .undefinedBehavior ∧
    isOutOfRange (Circle.remove (⟨[], 0⟩ : Circle Int)) = false ∧
    Circle.remove (⟨[7], 0⟩ : Circle Int) = .ok ⟨[], 0⟩ ∧
    Circle.remove (Circle.clear (⟨[7], 0⟩ : Circle Int)) = .error .undefinedBehavior :=
  ⟨rfl, rfl, rfl, rfl⟩

/-- C4 (code bug): the empty-buffer errors of `operator+=` / `operator-=` are
real, but the new zero index is *not* the floored modulo of
`zero_index ± delta`: retreating by 1 from zero index 0 on a size-3 buffer
should give `(0 - 1) mod 3 = 2`, while the signed/unsigned comparison in the
first loop grinds the negative index to `((0 - 1) + 2^32) mod 3 = 0`. -/
theorem claim_C4 :
    isOutOfRange (Circle.advance (⟨[], 0⟩ : Circle Int) 1) = true ∧
    isOutOfRange (Circle.retreat (⟨[], 0⟩ : Circle Int) 1) = true ∧
    Circle.retreat (⟨[10, 20, 30], 0⟩ : Circle Int) 1 = .ok ⟨[10, 20, 30], 0⟩ ∧
    (0 - 1 : Int) % 3 = 2 ∧ (0 : Int) ≠ 2 := by
  refine ⟨by rfl, by rfl, ?_, by decide, by decide⟩
  rw [retreat_spec (⟨[10, 20, 30], 0⟩ : Circle Int) 1 (by decide) (by decide) (by decide)
    (by decide)]
  rfl

/-- C5 (code bug): the prefix forms are not equivalent to `advance(1)` /
`retreat(1)`.  On an empty buffer `operator++` silently moves the zero index
from 0 to 1 and `operator--` to -1, while `+=`/`-=` throw out-of-range; on a
non-empty buffer `operator--` from zero index 0 correctly wraps to
`size() - 1`, while `-= 1` grinds the index to `((0-1) + 2^32) mod size()`
(= 0 for size 3). -/
theorem claim_C5 :
    Circle.inc (⟨[], 0⟩ : Circle Int) = .ok ⟨[], 1⟩ ∧
    isOutOfRange (Circle.advance (⟨[], 0⟩ : Circle Int) 1) = true ∧
    Circle.dec (⟨[], 0⟩ : Circle Int) = .ok ⟨[], -1⟩ ∧
    isOutOfRange (Circle.retreat (⟨[], 0⟩ : Circle Int) 1) = true ∧
    Circle.dec (⟨[10, 20, 30], 0⟩ : Circle Int) = .ok ⟨[10, 20, 30], 2⟩ ∧
    Circle.retreat (⟨[10, 20, 30], 0⟩ : Circle Int) 1 = .ok ⟨[10, 20, 30], 0⟩ ∧
    (2 : Int) ≠ 0 := by
  refine ⟨by rfl, by rfl, by rfl, by rfl, by rfl, ?_, by decide⟩
  rw [retreat_spec (⟨[10, 20, 30], 0⟩ : Circle Int) 1 (by decide) (by decide) (by decide)
    (by decide)]
  rfl

/-- C6 (code bug): periodicity `buffer[i] == buffer[i + n]` fails in the band
`-n ≤ zero_index + i < 0`, where only one of the two accesses goes through
the unsigned reinterpretation: on `[10, 20, 30]` with `zero_index = 0`,
`buffer[-1]` yields `10` but `buffer[-1 + 3] = buffer[2]` yields `30`. -/
theorem claim_C6 :
    Circle.get (⟨[10, 20, 30], 0⟩ : Circle Int) (-1) = .ok 10 ∧
    Circle.get (⟨[10, 20, 30], 0⟩ : Circle Int) (-1 + 3) = .ok 30 ∧
    (10 : Int) ≠ 30 := by
  refine ⟨?_, ?_, by decide⟩
  · rw [get_spec (⟨[10, 20, 30], 0⟩ : Circle Int) (-1) (by decide) (by decide) (by decide)
      (by decide)]
    rfl
  · rw [get_spec (⟨[10, 20, 30], 0⟩ : Circle Int) (-1 + 3) (by decide) (by decide) (by decide)
      (by decide)]
    rfl

/-- A `CircleInv` goal on an explicitly given state, with the projections
already reduced. -/
theorem circleInv_mk {T : Type} (l : List T) (i : Int)
    (h : 0 < l.length → 0 ≤ i ∧ i < (l.length : Int)) : CircleInv ⟨l, i⟩ := h

/-- C1 counterexample: the claim fails on the code.  The state
`⟨[20, 10], 1⟩` is reachable (insert 10; insert 20; prefix ++) and satisfies
the invariant, but `remove()` on it returns the non-empty state `⟨[20], 1⟩`
whose zero index equals its size — `0 ≤ zero_index < size()` is not
re-established. -/
theorem cex_C1 :
    ReachableC ⟨[20, 10], 1⟩ ∧
    Circle.remove (⟨[20, 10], 1⟩ : Circle Int) = .ok ⟨[20], 1⟩ ∧
    ¬ CircleInv (⟨[20], 1⟩ : Circle Int) := by
  refine ⟨?_, by rfl, ?_⟩
  · have h1 : ReachableC ⟨[10], 0⟩ := .insert 10 .init (by rfl)
    have h2 : ReachableC ⟨[20, 10], 0⟩ := .insert 20 h1 (by rfl)
    exact .inc h2 (by rfl)
  · intro h
    have := (h (by decide)).2
    revert this
    decide

/-- C1 (amended): from a state satisfying the §3 invariant, `clear`,
`insert`, `operator+=`, `operator-=`, the prefix and postfix increment and
decrement all re-establish `0 ≤ zero_index < size()` on every normally
completing execution that leaves the buffer non-empty (`operator[]` does not
change the state at all).  `remove()` re-establishes it only when the removed
position is not the last one (`zero_index + 1 < size()`) or the buffer
becomes empty; when `zero_index + 1 = size() ≥ 2` the exit state is non-empty
with `zero_index = size()`, violating the invariant. -/
theorem claim_C1 {T : Type} (c : Circle T) (x : T) (d : Int)
    (hinv : CircleInv c) (hn : (c.contents.length : Int) ≤ 2147483648) :
    CircleInv (c.clear) ∧
    (∀ c', c.insert x = .ok c' → CircleInv c') ∧
    (∀ c', c.advance d = .ok c' → CircleInv c') ∧
    (∀ c', c.retreat d = .ok c' → CircleInv c') ∧
    (∀ c', c.inc = .ok c' → CircleInv c') ∧
    (∀ c', c.dec = .ok c' → CircleInv c') ∧
    (∀ p, c.incPost = .ok p → CircleInv p.2) ∧
    (∀ p, c.decPost = .ok p → CircleInv p.2) ∧
    (∀ c', c.remove = .ok c' → c.index + 1 < (c.contents.length : Int) → CircleInv c') ∧
    (∀ c', c.remove = .ok c' → c.contents.length = 1 → CircleInv c') ∧
    (∀ c', c.remove = .ok c' → c.index + 1 = (c.contents.length : Int) →
      2 ≤ c.contents.length → 0 < c'.contents.length ∧ c'.index = (c'.contents.length : Int)) := by
  have hclear : CircleInv (c.clear) := by
    intro h
    simp [Circle.clear] at h
  have hins : ∀ c', c.insert x = .ok c' → CircleInv c' := by
    intro c' h
    rw [Circle.insert] at h
    split at h
    case isFalse => exact absurd h (by simp)
    case isTrue hcond =>
      have hc := Except.ok.inj h
      subst hc
      refine circleInv_mk _ _ (fun _ => ⟨hcond.1, ?_⟩)
      simp only [List.length_append, List.length_take, List.length_cons, List.length_drop]
      omega
  have hadv : ∀ c', c.advance d = .ok c' → CircleInv c' := by
    intro c' h
    rw [Circle.advance] at h
    split at h
    case isTrue => exact absurd h (by simp)
    case isFalse hlen =>
      split at h
      case isTrue => exact absurd h (by simp)
      case isFalse hov =>
        have hc := Except.ok.inj h
        subst hc
        refine circleInv_mk _ _ (fun hpos => ?_)
        rw [normalizeIdx_eq _ (by exact_mod_cast hpos) hn]
        exact ⟨Int.emod_nonneg _ (by omega), Int.emod_lt_of_pos _ (by exact_mod_cast hpos)⟩
  have hret : ∀ c', c.retreat d = .ok c' → CircleInv c' := by
    intro c' h
    rw [Circle.retreat] at h
    split at h
    case isTrue => exact absurd h (by simp)
    case isFalse hlen =>
      split at h
      case isTrue => exact absurd h (by simp)
      case isFalse hov =>
        have hc := Except.ok.inj h
        subst hc
        refine circleInv_mk _ _ (fun hpos => ?_)
        rw [normalizeIdx_eq _ (by exact_mod_cast hpos) hn]
        exact ⟨Int.emod_nonneg _ (by omega), Int.emod_lt_of_pos _ (by exact_mod_cast hpos)⟩
  have hinc : ∀ c', c.inc = .ok c' → CircleInv c' := by
    intro c' h
    rw [Circle.inc] at h
    split at h
    case isTrue => exact absurd h (by simp)
    case isFalse hov =>
      split at h
      case isTrue heq =>
        have hc := Except.ok.inj h
        subst hc
        exact circleInv_mk _ _ (fun hpos => ⟨le_refl 0, by exact_mod_cast hpos⟩)
      case isFalse heq =>
        have hc := Except.ok.inj h
        subst hc
        refine circleInv_mk _ _ (fun hpos => ?_)
        have hi := hinv hpos
        constructor <;> omega
  have hdec : ∀ c', c.dec = .ok c' → CircleInv c' := by
    intro c' h
    rw [Circle.dec] at h
    split at h
    case isTrue => exact absurd h (by simp)
    case isFalse hov =>
      split at h
      case isTrue heq =>
        have hc := Except.ok.inj h
        subst hc
        refine circleInv_mk _ _ (fun hpos => ?_)
        rw [i32wrap_eq_self _ (by omega) (by omega)]
        constructor <;> omega
      case isFalse heq =>
        have hc := Except.ok.inj h
        subst hc
        refine circleInv_mk _ _ (fun hpos => ?_)
        have hi := hinv hpos
        constructor <;> omega
  have hremBase : ∀ c', c.remove = .ok c' →
      (0 ≤ c.index ∧ c.index < (c.contents.length : Int)) ∧
      c' = ⟨c.contents.take c.index.toNat ++ c.contents.drop (c.index.toNat + 1), c.index⟩ := by
    intro c' h
    rw [Circle.remove] at h
    split at h
    case isTrue hcond => exact ⟨hcond, (Except.ok.inj h).symm⟩
    case isFalse => exact absurd h (by simp)
  refine ⟨hclear, hins, hadv, hret, hinc, hdec, ?_, ?_, ?_, ?_, ?_⟩
  · intro p h
    rw [Circle.incPost] at h
    cases hg : c.get 0 with
    | error e => rw [hg] at h; exact absurd h (by simp)
    | ok og =>
      rw [hg] at h
      cases hi : c.inc with
      | error e => rw [hi] at h; exact absurd h (by simp)
      | ok c2 =>
        rw [hi] at h
        have hc := Except.ok.inj h
        subst hc
        exact hinc c2 hi
  · intro p h
    rw [Circle.decPost] at h
    cases hg : c.get 0 with
    | error e => rw [hg] at h; exact absurd h (by simp)
    | ok og =>
      rw [hg] at h
      cases hi : c.dec with
      | error e => rw [hi] at h; exact absurd h (by simp)
      | ok c2 =>
        rw [hi] at h
        have hc := Except.ok.inj h
        subst hc
        exact hdec c2 hi
  · intro c' h hsmall
    obtain ⟨hcond, hc⟩ := hremBase c' h
    subst hc
    refine circleInv_mk _ _ (fun _ => ⟨hcond.1, ?_⟩)
    simp only [List.length_append, List.length_take, List.length_drop]
    omega
  · intro c' h hone
    obtain ⟨hcond, hc⟩ := hremBase c' h
    subst hc
    refine circleInv_mk _ _ (fun hpos => ?_)
    exfalso
    simp only [List.length_append, List.length_take, List.length_drop] at hpos
    omega
  · intro c' h hlast htwo
    obtain ⟨hcond, hc⟩ := hremBase c' h
    subst hc
    simp only [List.length_append, List.length_take, List.length_drop]
    constructor <;> omega

/-- Instance of the amended C1 at a concrete state: removing from the
invariant-satisfying state `⟨[5, 6], 0⟩` (not at the last position) yields
`⟨[6], 0⟩`, on which the invariant holds. -/
theorem claim_C1_witness : CircleInv (⟨[6], 0⟩ : Circle Int) := by
  have h := claim_C1 (⟨[5, 6], 0⟩ : Circle Int) 7 1 (by intro h; exact ⟨by decide, by decide⟩)
    (by decide)
  exact h.2.2.2.2.2.2.2.2.1 ⟨[6], 0⟩ (by rfl) (by decide)

theorem insert_ok {T : Type} (c : Circle T) (x : T)
    (h0 : 0 ≤ c.index) (h1 : c.index ≤ (c.contents.length : Int)) :
    c.insert x = .ok (insResult c x) := by
  rw [Circle.insert, if_pos ⟨h0, h1⟩]
  rfl

theorem vecGet_eq_ok {T : Type} (l : List T) (i : Int) (v : T)
    (h0 : 0 ≤ i) (h : l.get? i.toNat = some v) : vecGet l i = .ok v := by
  have h1 : i.toNat < l.length := by
    rcases List.get?_eq_some.mp h with ⟨hh, _⟩
    exact hh
  rw [vecGet, dif_pos ⟨h0, h1⟩]
  rw [List.get?_eq_get h1] at h
  exact congrArg Except.ok (Option.some.inj h)

/-- C7 counterexample: `insert` does *not* succeed on every reachable state.
The prefix decrement on the default-constructed (empty) buffer leaves
`zero_index = -1` (`index--` makes it -1 and the wrap-fixup assigns
`contents.size() - 1`, which on an empty buffer is `(size_t)(-1)` narrowed
back to -1); from that reachable state, `insert` calls
`contents.insert(begin() + (-1), x)` — an invalid iterator, undefined
behavior, not a success. -/
theorem cex_C7 :
    ReachableC ⟨[], -1⟩ ∧
    Circle.insert (⟨[], -1⟩ : Circle Int) 42 = .error .undefinedBehavior :=
  ⟨.dec .init (by rfl), by rfl⟩

/-- C7 (amended): on every state whose zero index lies in `[0, size()]` — in
particular on every state satisfying the §3 invariant and on the
canonical empty state — `insert(x)` succeeds, `buffer[0]` then reads `x`,
and (when the buffer was non-empty) the previous logical-0 element has moved
to logical position 1.  States with a zero index outside `[0, size()]`
(reachable, see the counterexample) make `insert` undefined behavior
instead. -/
theorem claim_C7 {T : Type} (c : Circle T) (x : T)
    (h0 : 0 ≤ c.index) (h1 : c.index ≤ (c.contents.length : Int))
    (hn : (c.contents.length : Int) + 1 ≤ 2147483648) :
    c.insert x = .ok (insResult c x) ∧
    (insResult c x).get 0 = .ok x ∧
    (c.index < (c.contents.length : Int) → (insResult c x).get 1 = c.get 0) := by
  have hidx : (insResult c x).index = c.index := rfl
  have htake : (c.contents.take c.index.toNat).length = c.index.toNat := by
    simp only [List.length_take]
    omega
  have hlenc : (insResult c x).contents.length = c.contents.length + 1 := by
    simp only [insResult, List.length_append, List.length_take, List.length_cons,
      List.length_drop]
    omega
  refine ⟨insert_ok c x h0 h1, ?_, ?_⟩
  · rw [get_spec (insResult c x) 0 (by omega) (by omega) (by omega) (by omega)]
    have e1 : ((insResult c x).index + 0) % 4294967296 % ((insResult c x).contents.length : Int)
        = c.index := by
      rw [hidx, hlenc]
      have e0 : (c.index + 0) % 4294967296 = c.index := by omega
      rw [e0]
      push_cast
      exact Int.emod_eq_of_lt h0 (by omega)
    rw [e1]
    refine vecGet_eq_ok _ _ _ h0 ?_
    show ((c.contents.take c.index.toNat ++ x :: c.contents.drop c.index.toNat).get?
      c.index.toNat) = some x
    rw [List.get?_append_right (le_of_eq htake), htake]
    simp
  · intro hlt
    rw [get_spec (insResult c x) 1 (by omega) (by omega) (by omega) (by omega),
      get_spec c 0 (by omega) (by omega) (by omega) (by omega)]
    have hk : c.index.toNat < c.contents.length := by omega
    have e1 : ((insResult c x).index + 1) % 4294967296 % ((insResult c x).contents.length : Int)
        = c.index + 1 := by
      rw [hidx, hlenc]
      have e0 : (c.index + 1) % 4294967296 = c.index + 1 := by omega
      rw [e0]
      push_cast
      exact Int.emod_eq_of_lt (by omega) (by omega)
    have e2 : (c.index + 0) % 4294967296 % (c.contents.length : Int) = c.index := by
      have e0 : (c.index + 0) % 4294967296 = c.index := by omega
      rw [e0]
      exact Int.emod_eq_of_lt h0 hlt
    rw [e1, e2]
    rw [vecGet_eq_ok _ _ (c.contents.get ⟨c.index.toNat, hk⟩) (by omega) ?_,
      vecGet_eq_ok _ _ (c.contents.get ⟨c.index.toNat, hk⟩) h0 (List.get?_eq_get hk)]
    show ((c.contents.take c.index.toNat ++ x :: c.contents.drop c.index.toNat).get?
      (c.index + 1).toNat) = some (c.contents.get ⟨c.index.toNat, hk⟩)
    have hk1 : (c.index + 1).toNat = c.index.toNat + 1 := by omega
    rw [hk1, List.get?_append_right (by omega)]
    rw [show c.index.toNat + 1 - (c.contents.take c.index.toNat).length = 1 by omega]
    rw [List.get?_cons_succ, List.get?_drop]
    rw [show c.index.toNat + 0 = c.index.toNat by omega]
    exact List.get?_eq_get hk

/-- Instance of the amended C7: inserting 5 into `⟨[10, 20], 0⟩` and reading
logical position 0 gives back 5. -/
theorem claim_C7_witness : (insResult (⟨[10, 20], 0⟩ : Circle Int) 5).get 0 = .ok 5 :=
  (claim_C7 (⟨[10, 20], 0⟩ : Circle Int) 5 (by decide) (by decide) (by decide)).2.1

/-- C10: the postfix increment and decrement start by reading `(*this)[0]`;
on an empty buffer that read throws `std::out_of_range` before anything has
been mutated, so both the backing storage and the zero index are unchanged
when the exception leaves the operator. -/
theorem claim_C10 {T : Type} (c : Circle T) (h : c.contents.length = 0) :
    c.incPost = .error (.outOfRange, c) ∧ c.decPost = .error (.outOfRange, c) := by
  have hg : c.get 0 = .error .outOfRange := get_empty c 0 h
  constructor
  · rw [Circle.incPost, hg]
  · rw [Circle.decPost, hg]

/-- Instance of C10 on the default-constructed empty buffer. -/
theorem claim_C10_witness :
    Circle.incPost (⟨[], 0⟩ : Circle Int) = .error (.outOfRange, ⟨[], 0⟩) :=
  (claim_C10 (⟨[], 0⟩ : Circle Int) rfl).1

namespace PythonicVector

variable {T : Type}

theorem sliceLoop_spec (l : List T) (fuel : Nat) :
    ∀ (i : Int) (acc : List T), 0 ≤ i → i.toNat + fuel ≤ l.length →
      sliceLoop l fuel i acc = .ok (acc ++ (l.drop i.toNat).take fuel) := by
  induction fuel with
  | zero =>
    intro i acc _ _
    simp [sliceLoop]
  | succ fuel ih =>
    intro i acc h0 h1
    have hlt : i.toNat < l.length := by omega
    rw [sliceLoop, vecGet_eq_ok l i (l.get ⟨i.toNat, hlt⟩) h0 (List.get?_eq_get hlt)]
    show sliceLoop l fuel (i + 1) (acc ++ [l.get ⟨i.toNat, hlt⟩]) = _
    rw [ih (i + 1) (acc ++ [l.get ⟨i.toNat, hlt⟩]) (by omega) (by omega)]
    congr 1
    rw [List.append_assoc]
    congr 1
    have hk1 : (i + 1).toNat = i.toNat + 1 := by omega
    rw [hk1, List.drop_eq_getElem_cons hlt, List.take_succ_cons, List.singleton_append]
    simp [List.get_eq_getElem]

/-- C8: for `0 ≤ start` and `end ≤ size()`, `operator()(start, end)` returns
a fresh vector holding exactly the elements at storage indices
`start, ..., end - 1` in order (an empty vector when `start ≥ end`), and the
operation never touches the receiver (the embedding is pure, mirroring that
the source only reads `contents`). -/
theorem claim_C8 {T : Type} (l : List T) (start stop : Int)
    (h1 : 0 ≤ start) (h2 : stop ≤ (l.length : Int)) :
    PythonicVector.slice ⟨l⟩ start stop =
      .ok ⟨(l.drop start.toNat).take (stop - start).toNat⟩ := by
  rw [PythonicVector.slice]
  by_cases hss : stop ≤ start
  · rw [show (stop - start).toNat = 0 by omega]
    simp [sliceLoop]
  · rw [sliceLoop_spec l (stop - start).toNat start [] h1 (by omega)]
    simp

/-- Instance of C8 from the spec: `v(1, 4)` on `[1, 2, 3, 4, 5]` returns
`[2, 3, 4]`. -/
theorem claim_C8_witness :
    PythonicVector.slice (⟨[1, 2, 3, 4, 5]⟩ : PythonicVector Int) 1 4 = .ok ⟨[2, 3, 4]⟩ := by
  have h := claim_C8 ([1, 2, 3, 4, 5] : List Int) 1 4 (by decide) (by decide)
  simpa using h

/-- C9: the bracket operator remaps a negative index by adding `size()`, so
for `-size() ≤ index < 0` (on a non-empty vector whose size fits in `int`)
`v[index]` and `v[index + size()]` are the same access. -/
theorem claim_C9 {T : Type} (v : PythonicVector T) (index : Int)
    (h0 : 0 < v.contents.length) (hn : (v.contents.length : Int) ≤ 2147483648)
    (h1 : -(v.contents.length : Int) ≤ index) (h2 : index < 0) :
    v.get index = v.get (index + (v.contents.length : Int)) := by
  rw [PythonicVector.get, PythonicVector.get, if_pos h2, if_neg (by omega),
    i32wrap_eq_self _ (by omega) (by omega)]

/-- Instance of C9: on `[10, 20, 30]`, `v[-1]` is the same access as
`v[-1 + 3] = v[2] = v[size() - 1]`. -/
theorem claim_C9_witness :
    PythonicVector.get (⟨[10, 20, 30]⟩ : PythonicVector Int) (-1) =
      PythonicVector.get (⟨[10, 20, 30]⟩ : PythonicVector Int) 2 := by
  have h := claim_C9 (⟨[10, 20, 30]⟩ : PythonicVector Int) (-1) (by decide) (by decide)
    (by decide) (by decide)
  simpa using h

end PythonicVector

end Alexandria
